import Mathlib

/-!
Verification of the adaptive-flashcards application (`app.py`).

Shallow embedding conventions:
* Python floats (SQLite REAL) are modelled as exact rationals `ℚ`.  `round(x, n)`
  is modelled by `roundTo n` (round to the nearest multiple of `10⁻ⁿ`); all values
  arising in the verified claims are away from ties, where Python's float
  rounding agrees with exact rational rounding.
* Timestamps (ISO-8601 strings produced by `datetime.utcnow().isoformat()`,
  compared lexicographically by SQLite, which for such strings coincides with
  chronological order) are modelled as rationals counting days since the epoch
  `1970-01-01T00:00:00`, which is modelled as `0`.  `now_ts()` becomes an
  explicit `now : ℚ` parameter, and `days_from_now n = now + n`.
* Python `int` columns are modelled as `ℤ`, row identifiers as `ℕ`.
* A SQLite table is modelled as a `List` of rows in rowid (= `id`) scan order.
* `assert` and raised exceptions become typed errors (`Err`); since the Python
  code mutates global/database state before some raise points, every stateful
  operation returns the (possibly partially mutated) state together with the
  error, mirroring which mutations had already been committed when the
  exception escaped.
* `PRAGMA foreign_keys = ON` is executed only on the connection opened by
  `init_db`; every other operation opens a fresh connection via `get_conn()`,
  on which SQLite's default `foreign_keys = OFF` applies.  Hence the
  `ON DELETE CASCADE` clauses declared in the schema never fire at runtime,
  and `DELETE` statements remove only the rows they name.  The embedding
  models this runtime behaviour.
* The `topics`, `card_topics` and `topic_edges` tables, the `DeckIndex` /
  `TopicGraph` in-memory indexes and `SessionHistory` are not consumed by any
  verified claim and are omitted from the state.
-/

namespace Flashcards

/-- `round(x, n)` at `n` decimal places over exact rationals. -/
def roundTo (n : ℕ) (x : ℚ) : ℚ :=
  ((round (x * (10 : ℚ) ^ n) : ℤ) : ℚ) / (10 : ℚ) ^ n

/-- One row of the `decks` table (`id INTEGER PRIMARY KEY, name TEXT UNIQUE,
parent_id INTEGER` nullable). -/
structure DeckRow where
  id : ℕ
  name : String
  parent_id : Option ℕ
  deriving DecidableEq, Repr

/-- One row of the `cards` table / the `Card` dataclass of `app.py`. -/
structure Card where
  id : ℕ
  deck_id : ℕ
  front : String
  back : String
  tags : String
  easiness : ℚ
  interval : ℚ
  repetitions : ℤ
  due_ts : Option ℚ
  last_review_ts : Option ℚ
  successes : ℤ
  failures : ℤ
  created_ts : ℚ
  updated_ts : ℚ
  deriving DecidableEq, Repr

/-- Error kinds raised (or reported) by the application, as listed in the
spec's §7 plus the low-level SQLite/Python failures the code can actually hit. -/
inductive Err where
  /-- `assert 0 <= quality <= 5` fails in `sm2_update`. -/
  | invalidQuality
  /-- `ValueError` from `get_deck_id_by_name` / `delete_deck`. -/
  | deckNotFound
  /-- `ValueError("Card not found")` from `edit_card` / `delete_card`. -/
  | cardNotFound
  /-- `ValueError("No valid fields to update")` from `edit_card`. -/
  | noFieldsToUpdate
  /-- `cmd_answer`: `QuizQueue` is empty ("No card loaded"). -/
  | queueEmpty
  /-- `cmd_answer`: the dequeued card id is absent from storage ("Card missing"). -/
  | cardMissing
  /-- `do_undo` on an empty undo stack ("Nothing to undo."). -/
  | nothingToUndo
  /-- `do_redo` on an empty redo stack ("Nothing to redo."). -/
  | nothingToRedo
  /-- Python `KeyError`: a dict payload lacks a key `apply_inverse` reads. -/
  | keyError
  /-- SQLite `UNIQUE` / `PRIMARY KEY` constraint violation on an `INSERT`. -/
  | uniqueViolation
  /-- SQLite `NOT NULL` constraint violation on an `INSERT`. -/
  | notNullViolation
  deriving DecidableEq, Repr

/-- `sm2_update(card, quality)` from `app.py` (lines 226-257).  The leading
`assert 0 <= quality <= 5` is modelled by returning `none`; on success the
updated card is returned.  `now` stands for the value of `now_ts()` /
`days_from_now` during the call. -/
def sm2_update (now : ℚ) (card : Card) (quality : ℤ) : Option Card :=
  if 0 ≤ quality ∧ quality ≤ 5 then
    let e := card.easiness
    let r := card.repetitions
    let interval := card.interval
    if quality < 3 then
      -- failure branch: r = 0, interval = 0, failures += 1
      some { card with
        easiness := roundTo 4 e
        interval := 0
        repetitions := 0
        failures := card.failures + 1
        last_review_ts := some now
        due_ts := some (now + 0)
        updated_ts := now }
    else
      let interval' : ℚ :=
        if r = 0 then 1 else if r = 1 then 6 else roundTo 2 (interval * e)
      let d : ℚ := ((5 - quality : ℤ) : ℚ)
      let e' := e + (1 / 10 - d * (8 / 100 + d * (2 / 100)))
      let e'' := if e' < 13 / 10 then 13 / 10 else e'
      some { card with
        easiness := roundTo 4 e''
        interval := interval'
        repetitions := r + 1
        successes := card.successes + 1
        last_review_ts := some now
        due_ts := some (now + interval')
        updated_ts := now }
  else
    none

/-- Iterate `sm2_update` over a list of quality grades (all reviews at the
same `now`; the timestamps do not feed back into the scheduling arithmetic). -/
def sm2_run (now : ℚ) (card : Card) : List ℤ → Option Card
  | [] => some card
  | q :: qs =>
    match sm2_update now card q with
    | none => none
    | some card' => sm2_run now card' qs

/-- A brand-new card as inserted by `add_card`: easiness `2.5`, interval `0`,
repetitions `0` (concrete input used by witnesses and counterexamples). -/
def newCard : Card :=
  { id := 1, deck_id := 1, front := "f", back := "b", tags := ""
    easiness := 5 / 2, interval := 0, repetitions := 0
    due_ts := some 0, last_review_ts := none
    successes := 0, failures := 0, created_ts := 0, updated_ts := 0 }

/-! ## Session state, storage operations and the undo/redo engine

The global session state of `app.py` (lines 264-270) together with the two
SQLite tables the claims are about.  Tables are lists of rows in rowid scan
order.  Operation payloads are Python dicts of a handful of fixed shapes; the
`Payload` inductive enumerates exactly the shapes the program constructs, and
the `get...` helpers mirror `data["key"]` lookups (returning `none` where
Python would raise `KeyError`). -/

/-- A field map for a `cards` row: one `Option` per updatable column
(Python: a dict keyed by column name; `none` = key absent). -/
structure CardFieldsPatch where
  deck_id : Option ℕ
  front : Option String
  back : Option String
  tags : Option String
  easiness : Option ℚ
  interval : Option ℚ
  repetitions : Option ℤ
  due_ts : Option (Option ℚ)
  last_review_ts : Option (Option ℚ)
  successes : Option ℤ
  failures : Option ℤ
  created_ts : Option ℚ
  updated_ts : Option ℚ
  deriving DecidableEq, Repr

/-- A field map that also carries the row id under key `"id"` (used in the
`WHERE id = :id` clause; `UPDATE` never sets the id itself). -/
structure CardPatch where
  id : ℕ
  fields : CardFieldsPatch
  deriving DecidableEq, Repr

/-- The empty field map (a dict with no column keys). -/
def emptyFields : CardFieldsPatch :=
  { deck_id := none, front := none, back := none, tags := none, easiness := none
    interval := none, repetitions := none, due_ts := none, last_review_ts := none
    successes := none, failures := none, created_ts := none, updated_ts := none }

/-- Apply a field map to a row: `UPDATE cards SET k = :k, ...` for exactly the
present keys. -/
def applyFields (p : CardFieldsPatch) (c : Card) : Card :=
  { c with
    deck_id := p.deck_id.getD c.deck_id
    front := p.front.getD c.front
    back := p.back.getD c.back
    tags := p.tags.getD c.tags
    easiness := p.easiness.getD c.easiness
    interval := p.interval.getD c.interval
    repetitions := p.repetitions.getD c.repetitions
    due_ts := p.due_ts.getD c.due_ts
    last_review_ts := p.last_review_ts.getD c.last_review_ts
    successes := p.successes.getD c.successes
    failures := p.failures.getD c.failures
    created_ts := p.created_ts.getD c.created_ts
    updated_ts := p.updated_ts.getD c.updated_ts }

/-- The field map holding every column of a row (`dict(row)` / `asdict(c)`). -/
def fullFields (c : Card) : CardFieldsPatch :=
  { deck_id := some c.deck_id, front := some c.front, back := some c.back
    tags := some c.tags, easiness := some c.easiness, interval := some c.interval
    repetitions := some c.repetitions, due_ts := some c.due_ts
    last_review_ts := some c.last_review_ts, successes := some c.successes
    failures := some c.failures, created_ts := some c.created_ts
    updated_ts := some c.updated_ts }

/-- `dict(row)` including the id key. -/
def fullPatch (c : Card) : CardPatch := ⟨c.id, fullFields c⟩

/-- The dict payload of an undo/redo record: exactly the shapes `app.py`
constructs.  `name` = `\x7b"name": n\x7d`; `deckRow` = a full `decks` row;
`cardId` = `\x7b"card_id": i\x7d`; `rowId` = `\x7b"id": i\x7d`; `cardRow` = a
full `cards` row; `beforeAfter` = `\x7b"before": b, "after": a\x7d`;
`beforeOnly` = `\x7b"before": b\x7d`. -/
inductive Payload where
  | name (n : String)
  | deckRow (r : DeckRow)
  | cardId (cid : ℕ)
  | rowId (cid : ℕ)
  | cardRow (r : Card)
  | beforeAfter (b a : CardPatch)
  | beforeOnly (b : CardPatch)
  deriving DecidableEq, Repr

/-- `data["name"]` (present in the `name` and `deckRow` dict shapes). -/
def Payload.getName : Payload → Option String
  | .name n => some n
  | .deckRow r => some r.name
  | _ => none

/-- `data["id"]`. -/
def Payload.getId : Payload → Option ℕ
  | .deckRow r => some r.id
  | .rowId i => some i
  | .cardRow c => some c.id
  | _ => none

/-- `data["parent_id"]`. -/
def Payload.getParentId : Payload → Option (Option ℕ)
  | .deckRow r => some r.parent_id
  | _ => none

/-- `data["card_id"]`. -/
def Payload.getCardId : Payload → Option ℕ
  | .cardId i => some i
  | _ => none

/-- `data["before"]`. -/
def Payload.getBefore : Payload → Option CardPatch
  | .beforeAfter b _ => some b
  | .beforeOnly b => some b
  | _ => none

/-- `data["after"]`. -/
def Payload.getAfter : Payload → Option CardPatch
  | .beforeAfter _ a => some a
  | _ => none

/-- The session state: the two claim-relevant tables plus the process-wide
globals `QuizQueue`, `CardCache`, `UndoStack`, `RedoStack`. -/
structure AppState where
  decks : List DeckRow
  cards : List Card
  quizQueue : List ℕ
  cardCache : List (ℕ × Card)
  undoStack : List (String × Payload)
  redoStack : List (String × Payload)
  deriving DecidableEq, Repr

/-- Fresh rowid for an auto-assigned `INSERT` (SQLite: one more than the
largest existing rowid). -/
def freshDeckId (decks : List DeckRow) : ℕ := (decks.map DeckRow.id).foldr max 0 + 1

/-- Fresh rowid for an auto-assigned card `INSERT`. -/
def freshCardId (cards : List Card) : ℕ := (cards.map Card.id).foldr max 0 + 1

/-- `get_deck_id_by_name` (app.py lines 132-136): `none` models the raised
`ValueError` (deck not found). -/
def get_deck_id_by_name (decks : List DeckRow) (name : String) : Option ℕ :=
  (decks.find? (fun d => d.name = name)).map DeckRow.id

/-- `SELECT * FROM cards WHERE id = ?`. -/
def findCard (cards : List Card) (cid : ℕ) : Option Card :=
  cards.find? (fun c => c.id = cid)

/-- `UPDATE cards SET ... WHERE id = :id`. -/
def updateCardById (cards : List Card) (cid : ℕ) (f : Card → Card) : List Card :=
  cards.map (fun c => if c.id = cid then f c else c)

/-- `INSERT INTO decks(id, name, parent_id)` with an explicit id: fails on a
`PRIMARY KEY` or `UNIQUE(name)` conflict. -/
def insertDeckRow (r : DeckRow) (decks : List DeckRow) : Except Err (List DeckRow) :=
  if decks.any (fun d => d.id = r.id || d.name = r.name) then .error .uniqueViolation
  else .ok (decks ++ [r])

/-- `INSERT INTO cards(...)` of a full row with an explicit id: fails on a
`PRIMARY KEY` conflict.  (The `deck_id` foreign key is not checked: the
connection has `foreign_keys = OFF`.) -/
def insertCardRow (r : Card) (cards : List Card) : Except Err (List Card) :=
  if cards.any (fun c => c.id = r.id) then .error .uniqueViolation
  else .ok (cards ++ [r])

/-- `add_deck(name, parent)` (app.py lines 139-146). -/
def add_deck (name parent : String) (st : AppState) :
    AppState × Except Err (String × Payload) :=
  match get_deck_id_by_name st.decks parent with
  | none => (st, .error .deckNotFound)
  | some pid =>
    if st.decks.any (fun d => d.name = name) then (st, .error .uniqueViolation)
    else
      ({ st with decks := st.decks ++ [⟨freshDeckId st.decks, name, some pid⟩] },
        .ok ("add_deck", .name name))

/-- `delete_deck(name)` (app.py lines 149-159).  `DELETE FROM decks WHERE
id = ?` on a `foreign_keys = OFF` connection removes only the deck row: the
declared `ON DELETE CASCADE` clauses do not fire. -/
def delete_deck (name : String) (st : AppState) :
    AppState × Except Err (String × Payload) :=
  match st.decks.find? (fun d => d.name = name) with
  | none => (st, .error .deckNotFound)
  | some d =>
    ({ st with decks := st.decks.filter (fun x => x.id ≠ d.id) },
      .ok ("delete_deck", .deckRow d))

/-- `add_card(deck_name, front, back, tags, topics)` (app.py lines 162-187).
The `topics` / `card_topics` side tables are not modelled (no claim reads
them); the returned record and the `cards` row are as in the source. -/
def add_card (deck_name front back tags : String) (now : ℚ) (st : AppState) :
    AppState × Except Err (String × Payload) :=
  match get_deck_id_by_name st.decks deck_name with
  | none => (st, .error .deckNotFound)
  | some did =>
    let cid := freshCardId st.cards
    ({ st with cards := st.cards ++
        [{ id := cid, deck_id := did, front := front, back := back, tags := tags
           easiness := 5 / 2, interval := 0, repetitions := 0, due_ts := some now
           last_review_ts := none, successes := 0, failures := 0
           created_ts := now, updated_ts := now }] },
      .ok ("add_card", .cardId cid))

/-- `edit_card(card_id, **updates)` (app.py lines 190-206). -/
def edit_card (cid : ℕ) (updates : CardFieldsPatch) (now : ℚ) (st : AppState) :
    AppState × Except Err (String × Payload) :=
  match findCard st.cards cid with
  | none => (st, .error .cardNotFound)
  | some row =>
    if updates = emptyFields then (st, .error .noFieldsToUpdate)
    else
      let allowed : CardPatch := ⟨cid, { updates with updated_ts := some now }⟩
      ({ st with cards := updateCardById st.cards cid (applyFields allowed.fields) },
        .ok ("edit_card", .beforeAfter (fullPatch row) allowed))

/-- `delete_card(card_id)` (app.py lines 209-219). -/
def delete_card (cid : ℕ) (st : AppState) :
    AppState × Except Err (String × Payload) :=
  match findCard st.cards cid with
  | none => (st, .error .cardNotFound)
  | some row =>
    ({ st with cards := st.cards.filter (fun c => c.id ≠ cid) },
      .ok ("delete_card", .cardRow row))

/-- `apply_inverse(op, data)` (app.py lines 357-405).  Returns the (possibly
partially mutated) state together with the inverse record or the error at the
point where the Python raises: dict-key lookups that would raise `KeyError`
happen in source order, so for the `edit_card`/`answer_card` branches the
`UPDATE` has already been committed when `data["after"]` is missing. -/
def apply_inverse (op : String) (data : Payload) (st : AppState) :
    AppState × Except Err (String × Payload) :=
  if op = "add_deck" then
    match data.getName with
    | none => (st, .error .keyError)
    | some n =>
      ({ st with decks := st.decks.filter (fun d => d.name ≠ n) },
        .ok ("delete_deck", data))
  else if op = "delete_deck" then
    match data.getId, data.getName, data.getParentId with
    | some i, some n, some p =>
      match insertDeckRow ⟨i, n, p⟩ st.decks with
      | .error e => (st, .error e)
      | .ok decks => ({ st with decks := decks }, .ok ("add_deck", .name n))
    | _, _, _ => (st, .error .keyError)
  else if op = "add_card" then
    match data.getCardId with
    | none => (st, .error .keyError)
    | some cid =>
      ({ st with cards := st.cards.filter (fun c => c.id ≠ cid) },
        .ok ("delete_card", .rowId cid))
  else if op = "delete_card" then
    match data with
    | .cardRow r =>
      match insertCardRow r st.cards with
      | .error e => (st, .error e)
      | .ok cards => ({ st with cards := cards }, .ok ("add_card", .cardId r.id))
    | .rowId _ => (st, .error .notNullViolation)
    | _ => (st, .error .keyError)
  else if op = "edit_card" then
    match data.getBefore with
    | none => (st, .error .keyError)
    | some b =>
      let st' := { st with cards := updateCardById st.cards b.id (applyFields b.fields) }
      match data.getAfter with
      | some a => (st', .ok ("edit_card", .beforeAfter a b))
      | none => (st', .error .keyError)
  else if op = "answer_card" then
    match data.getBefore with
    | none => (st, .error .keyError)
    | some prev =>
      let st' := { st with cards := updateCardById st.cards prev.id (applyFields prev.fields) }
      match data.getAfter with
      | some a => (st', .ok ("answer_card", .beforeOnly a))
      | none => (st', .error .keyError)
  else
    (st, .ok (op, data))

/-- `push_undo` (app.py lines 334-336): push onto the undo stack and clear the
redo stack. -/
def push_undo (op : String × Payload) (st : AppState) : AppState :=
  { st with undoStack := op :: st.undoStack, redoStack := [] }

/-- `do_undo` (app.py lines 339-345).  The record is popped before
`apply_inverse` runs, so a failure inside `apply_inverse` has already consumed
it. -/
def do_undo (st : AppState) : AppState × Option Err :=
  match st.undoStack with
  | [] => (st, some .nothingToUndo)
  | op :: rest =>
    match apply_inverse op.1 op.2 { st with undoStack := rest } with
    | (st₂, .error e) => (st₂, some e)
    | (st₂, .ok inv) => ({ st₂ with redoStack := inv :: st₂.redoStack }, none)

/-- `do_redo` (app.py lines 348-354). -/
def do_redo (st : AppState) : AppState × Option Err :=
  match st.redoStack with
  | [] => (st, some .nothingToRedo)
  | op :: rest =>
    match apply_inverse op.1 op.2 { st with redoStack := rest } with
    | (st₂, .error e) => (st₂, some e)
    | (st₂, .ok inv) => ({ st₂ with undoStack := inv :: st₂.undoStack }, none)

/-- `cmd_add_deck` (app.py lines 418-422): run the operation, then
`push_undo` on success.  (`load_indexes` touches only the unmodelled
`DeckIndex`/`TopicGraph`.) -/
def cmd_add_deck (name parent : String) (st : AppState) : AppState × Option Err :=
  match add_deck name parent st with
  | (st', .ok op) => (push_undo op st', none)
  | (st', .error e) => (st', some e)

/-- `cmd_delete_deck` (app.py lines 425-429). -/
def cmd_delete_deck (name : String) (st : AppState) : AppState × Option Err :=
  match delete_deck name st with
  | (st', .ok op) => (push_undo op st', none)
  | (st', .error e) => (st', some e)

/-- `cmd_add_card` (app.py lines 432-437). -/
def cmd_add_card (deck front back tags : String) (now : ℚ) (st : AppState) :
    AppState × Option Err :=
  match add_card deck front back tags now st with
  | (st', .ok op) => (push_undo op st', none)
  | (st', .error e) => (st', some e)

/-- `cmd_edit_card` (app.py lines 440-447). -/
def cmd_edit_card (cid : ℕ) (updates : CardFieldsPatch) (now : ℚ) (st : AppState) :
    AppState × Option Err :=
  match edit_card cid updates now st with
  | (st', .ok op) => (push_undo op st', none)
  | (st', .error e) => (st', some e)

/-- `cmd_delete_card` (app.py lines 450-453). -/
def cmd_delete_card (cid : ℕ) (st : AppState) : AppState × Option Err :=
  match delete_card cid st with
  | (st', .ok op) => (push_undo op st', none)
  | (st', .error e) => (st', some e)

/-- `cmd_answer` (app.py lines 484-539).  Mirrors the source order: the queue
head is popped by `QuizQueue.popleft()` BEFORE the card is fetched and before
`sm2_update`'s quality assertion runs, so on `cardMissing` / `invalidQuality`
failures the queue has already lost its head.  On success the eight scheduling
columns are written back and an `answer_card` record with full before/after
row snapshots is pushed.  (`SessionHistory` is not modelled.) -/
def cmd_answer (q : ℤ) (now : ℚ) (st : AppState) : AppState × Option Err :=
  match st.quizQueue with
  | [] => (st, some .queueEmpty)
  | cid :: rest =>
    match findCard st.cards cid with
    | none => ({ st with quizQueue := rest }, some .cardMissing)
    | some row =>
      match sm2_update now row q with
      | none => ({ st with quizQueue := rest }, some .invalidQuality)
      | some c =>
        (push_undo ("answer_card", .beforeAfter (fullPatch row) (fullPatch c))
          { st with
              quizQueue := rest
              cards := updateCardById st.cards cid (fun x =>
                { x with easiness := c.easiness, interval := c.interval
                         repetitions := c.repetitions, due_ts := c.due_ts
                         last_review_ts := c.last_review_ts, successes := c.successes
                         failures := c.failures, updated_ts := c.updated_ts }) }, none)

/-! ### Due-set selector -/

/-- `COALESCE(due_ts, '1970-01-01T00:00:00')`: the effective sort key; the
epoch constant is `0` in the days-since-epoch model. -/
def dueKey (c : Card) : ℚ := c.due_ts.getD 0

/-- `due_ts IS NULL OR due_ts <= now`. -/
def isDue (now : ℚ) (c : Card) : Bool :=
  match c.due_ts with
  | none => true
  | some t => decide (t ≤ now)

/-- The `ORDER BY` comparison: ascending by effective due key only (the query
has no secondary sort term). -/
def dueLE (a b : Card) : Prop := dueKey a ≤ dueKey b

instance : DecidableRel dueLE := fun a b => inferInstanceAs (Decidable (dueKey a ≤ dueKey b))

instance : IsTotal Card dueLE := ⟨fun a b => le_total (dueKey a) (dueKey b)⟩

instance : IsTrans Card dueLE := ⟨fun _ _ _ h h' => le_trans h h'⟩

/-- `load_due_cards(deck, limit)` (app.py lines 299-327).  The queue and
cache are cleared FIRST, so they are empty even when the deck filter fails to
resolve.  The `ORDER BY ... ASC` over a full table scan is modelled as a
stable sort (`List.insertionSort`) of the rows in rowid order by the
`COALESCE`d due key. -/
def load_due_cards (deck : Option String) (limit : ℕ) (now : ℚ) (st : AppState) :
    AppState × Option Err :=
  let st₀ := { st with quizQueue := [], cardCache := [] }
  let deckFilter : Except Err (Card → Bool) :=
    match deck with
    | none => .ok (fun _ => true)
    | some name =>
      match get_deck_id_by_name st.decks name with
      | none => .error .deckNotFound
      | some did => .ok (fun c => c.deck_id = did)
  match deckFilter with
  | .error e => (st₀, some e)
  | .ok dmatch =>
    let rows := (List.insertionSort dueLE
      (st.cards.filter (fun c => isDue now c && dmatch c))).take limit
    ({ st₀ with quizQueue := rows.map Card.id
                cardCache := rows.map (fun c => (c.id, c)) }, none)

/-! ### Concrete states for witnesses and counterexamples -/

/-- The root deck created by `init_db`. -/
def rootDeck : DeckRow := ⟨1, "root", none⟩

/-- A child deck of root. -/
def childDeck : DeckRow := ⟨2, "child", some 1⟩

/-- A card that lives in the child deck. -/
def childCard : Card := { newCard with id := 1, deck_id := 2 }

/-- A base session: root deck, child deck with one card, empty stacks. -/
def baseState : AppState :=
  { decks := [rootDeck, childDeck], cards := [childCard]
    quizQueue := [], cardCache := [], undoStack := [], redoStack := [] }

/-- `baseState` with card 1 loaded into the review queue. -/
def answerState : AppState := { baseState with quizQueue := [1] }

/-- A session holding only the root deck and no cards. -/
def soloDeckState : AppState :=
  { decks := [rootDeck], cards := [], quizQueue := [], cardCache := []
    undoStack := [], redoStack := [] }

/-- The state after `add-card` into the root deck from `soloDeckState`. -/
def c5AfterAdd : AppState := (cmd_add_card "root" "f" "b" "" 0 soloDeckState).1

/-- The state after undoing that `add-card`. -/
def c5AfterUndo : AppState := (do_undo c5AfterAdd).1

/-- An edit payload setting only the front text. -/
def frontPatch : CardFieldsPatch := { emptyFields with front := some "g" }

/-- The state after `edit-card 1 --front g` from `baseState`. -/
def c5EditedState : AppState := (cmd_edit_card 1 frontPatch 0 baseState).1

/-- Tie ordering for the due-set: equal effective due keys listed by
ascending identifier. -/
def dueTie (a b : Card) : Prop := dueKey a = dueKey b → a.id ≤ b.id

/-- A card whose stored `due_ts` lies before the epoch constant
`'1970-01-01T00:00:00'` used by the query's `COALESCE`. -/
def preEpochCard : Card := { newCard with id := 1, due_ts := some (-1) }

/-- A card with no `due_ts` (due immediately). -/
def absentDueCard : Card := { newCard with id := 2, due_ts := none }

/-- A session with one pre-epoch-due card and one absent-due card. -/
def dueOrderState : AppState :=
  { decks := [rootDeck], cards := [preEpochCard, absentDueCard]
    quizQueue := [], cardCache := [], undoStack := [], redoStack := [] }

/-- The state after `delete-deck child` from `baseState`: only the deck row is
gone; the card survives (no cascade fires at runtime). -/
def afterDeleteChild : AppState :=
  { decks := [rootDeck], cards := [childCard], quizQueue := [], cardCache := []
    undoStack := [("delete_deck", .deckRow childDeck)], redoStack := [] }

end Flashcards

namespace Flashcards

/-! ## Scheduler lemmas -/

/-- `roundTo 4` cannot take a value that is at least `1.3` below `1.3`
(monotonicity of rounding at the floor). -/
lemma le_roundTo_four {x : ℚ} (h : 13 / 10 ≤ x) : 13 / 10 ≤ roundTo 4 x := by
  unfold roundTo
  rw [le_div_iff₀ (by norm_num : (0 : ℚ) < (10 : ℚ) ^ (4 : ℕ))]
  have h13 : ((13000 : ℤ) : ℚ) ≤ (round (x * (10 : ℚ) ^ (4 : ℕ)) : ℤ) := by
    rw [Int.cast_le]
    rw [round_eq, Int.le_floor]
    push_cast
    nlinarith
  calc (13 : ℚ) / 10 * (10 : ℚ) ^ (4 : ℕ) = ((13000 : ℤ) : ℚ) := by norm_num
    _ ≤ _ := h13

/-- Shape of a successful (`quality ≥ 3`) `sm2_update`: the explicit record
the function returns. -/
lemma sm2_update_success_eq (now : ℚ) (c : Card) (q : ℤ) (h3 : 3 ≤ q) (h5 : q ≤ 5) :
    sm2_update now c q =
      some { c with
        easiness := roundTo 4
          (if c.easiness + (1 / 10 - ((5 - q : ℤ) : ℚ) * (8 / 100 + ((5 - q : ℤ) : ℚ) * (2 / 100))) < 13 / 10
            then 13 / 10
            else c.easiness + (1 / 10 - ((5 - q : ℤ) : ℚ) * (8 / 100 + ((5 - q : ℤ) : ℚ) * (2 / 100))))
        interval := if c.repetitions = 0 then 1 else if c.repetitions = 1 then 6
          else roundTo 2 (c.interval * c.easiness)
        repetitions := c.repetitions + 1
        successes := c.successes + 1
        last_review_ts := some now
        due_ts := some (now + (if c.repetitions = 0 then 1 else if c.repetitions = 1 then 6
          else roundTo 2 (c.interval * c.easiness)))
        updated_ts := now } := by
  have h0 : (0 : ℤ) ≤ q := by omega
  have hn3 : ¬ q < 3 := by omega
  unfold sm2_update
  rw [if_pos ⟨h0, h5⟩, if_neg hn3]

/-- Shape of a failing (`quality < 3`) `sm2_update`. -/
lemma sm2_update_failure_eq (now : ℚ) (c : Card) (q : ℤ) (h0 : 0 ≤ q) (h3 : q < 3) :
    sm2_update now c q =
      some { c with
        easiness := roundTo 4 c.easiness
        interval := 0
        repetitions := 0
        failures := c.failures + 1
        last_review_ts := some now
        due_ts := some (now + 0)
        updated_ts := now } := by
  have h5 : q ≤ 5 := by omega
  unfold sm2_update
  rw [if_pos ⟨h0, h5⟩, if_pos h3]

/-- C1: on a success grade (`3 ≤ q ≤ 5`) the scheduler increments `successes`
and `repetitions`, computes the new interval from the PRE-update easiness
(`1` / `6` / `round(interval * easiness, 2)` according to the prior
repetition count), and sets
`easiness := round(max(1.3, easiness + (0.1 - (5-q)*(0.08 + (5-q)*0.02))), 4)`. -/
theorem c1_success_update (now : ℚ) (c : Card) (q : ℤ) (h3 : 3 ≤ q) (h5 : q ≤ 5) :
    ∃ c', sm2_update now c q = some c' ∧
      c'.successes = c.successes + 1 ∧
      c'.repetitions = c.repetitions + 1 ∧
      (c.repetitions = 0 → c'.interval = 1) ∧
      (c.repetitions = 1 → c'.interval = 6) ∧
      (c.repetitions ≠ 0 → c.repetitions ≠ 1 →
        c'.interval = roundTo 2 (c.interval * c.easiness)) ∧
      c'.easiness = roundTo 4 (max (13 / 10)
        (c.easiness + (1 / 10 - ((5 - q : ℤ) : ℚ) * (8 / 100 + ((5 - q : ℤ) : ℚ) * (2 / 100)))) ) := by
  refine ⟨_, sm2_update_success_eq now c q h3 h5, rfl, rfl, ?_, ?_, ?_, ?_⟩
  · intro h
    simp [h]
  · intro h
    have h0 : c.repetitions ≠ 0 := by omega
    simp [h, h0]
  · intro h0 h1
    simp [h0, h1]
  · show roundTo 4 _ = roundTo 4 _
    congr 1
    split_ifs with h
    · exact (max_eq_left h.le).symm
    · exact (max_eq_right (le_of_not_lt h)).symm

/-- Witness for `c1_success_update` at `q = 4`, `repetitions = 0`. -/
theorem c1_success_update_witness :
    ∃ c', sm2_update 0 newCard 4 = some c' ∧
      c'.successes = newCard.successes + 1 ∧
      c'.repetitions = newCard.repetitions + 1 ∧
      (newCard.repetitions = 0 → c'.interval = 1) ∧
      (newCard.repetitions = 1 → c'.interval = 6) ∧
      (newCard.repetitions ≠ 0 → newCard.repetitions ≠ 1 →
        c'.interval = roundTo 2 (newCard.interval * newCard.easiness)) ∧
      c'.easiness = roundTo 4 (max (13 / 10)
        (newCard.easiness + (1 / 10 - ((5 - 4 : ℤ) : ℚ) * (8 / 100 + ((5 - 4 : ℤ) : ℚ) * (2 / 100)))) ) :=
  c1_success_update 0 newCard 4 (by norm_num) (by norm_num)

/-- C2 (amended): on a failure grade (`0 ≤ q < 3`) the scheduler resets
`repetitions` and `interval` to `0`, increments `failures`, and stores
`easiness := round(easiness, 4)` (equal to the input easiness exactly when
that value is already a multiple of `10⁻⁴`). -/
theorem c2_failure_update (now : ℚ) (c : Card) (q : ℤ) (h0 : 0 ≤ q) (h3 : q < 3) :
    ∃ c', sm2_update now c q = some c' ∧
      c'.repetitions = 0 ∧
      c'.interval = 0 ∧
      c'.failures = c.failures + 1 ∧
      c'.easiness = roundTo 4 c.easiness :=
  ⟨_, sm2_update_failure_eq now c q h0 h3, rfl, rfl, rfl, rfl⟩

/-- Witness for `c2_failure_update` at `q = 2`. -/
theorem c2_failure_update_witness :
    ∃ c', sm2_update 0 newCard 2 = some c' ∧
      c'.repetitions = 0 ∧
      c'.interval = 0 ∧
      c'.failures = newCard.failures + 1 ∧
      c'.easiness = roundTo 4 newCard.easiness :=
  c2_failure_update 0 newCard 2 (by norm_num) (by norm_num)

/-- Counterexample to C2 as stated: `sm2_update` executes
`card.easiness = round(e, 4)` on the failure branch too, so a stored easiness
of `1.23456` becomes `1.2346` after a failed review — the easiness is NOT
left equal to the input. -/
theorem c2_counterexample :
    (sm2_update 0 { newCard with easiness := 123456 / 100000 } 0).map Card.easiness
        = some (6173 / 5000) ∧
      (6173 / 5000 : ℚ) ≠ 123456 / 100000 := by
  constructor
  · rw [sm2_update_failure_eq 0 _ 0 (by norm_num) (by norm_num)]
    simp only [Option.map_some', Option.some.injEq]
    rw [roundTo, round_eq]
    norm_num
  · norm_num

/-- Counterexample to C3 as stated: easiness rises by `0.1` on EACH successful
quality-5 answer, so after the second answer it is `2.7` (not `2.6`), and the
third interval is `round(6 * 2.7, 2) = 16.2`, not `≈ 15.6`. -/
theorem c3_counterexample :
    (sm2_run 0 newCard [5, 5]).map Card.easiness = some (27 / 10) ∧
      (27 / 10 : ℚ) ≠ 26 / 10 ∧
      (sm2_run 0 newCard [5, 5, 5]).map Card.interval = some (81 / 5) ∧
      (81 / 5 : ℚ) ≠ 78 / 5 := by
  refine ⟨?_, by norm_num, ?_, by norm_num⟩
  · simp only [sm2_run, sm2_update, newCard, roundTo, round_eq]
    norm_num
  · simp only [sm2_run, sm2_update, newCard, roundTo, round_eq]
    norm_num

/-- C3 (amended): a new card (easiness `2.5`, interval `0`, repetitions `0`)
answered three times with quality `5` yields interval `1` (due 1 day later),
then interval `6`, then interval `round(6 * new_easiness, 2)` where the
easiness after the second answer is `round(2.6 + 0.1, 4) = 2.7` (easiness
having risen by `0.1` on each of the first two answers), i.e. the third
interval is `16.2`. -/
theorem c3_scenario :
    (sm2_run 0 newCard [5]).map (fun c => (c.interval, c.due_ts)) = some (1, some 1) ∧
      (sm2_run 0 newCard [5, 5]).map (fun c => (c.interval, c.easiness))
        = some (6, roundTo 4 (26 / 10 + 1 / 10)) ∧
      roundTo 4 (26 / 10 + 1 / 10) = 27 / 10 ∧
      (sm2_run 0 newCard [5, 5, 5]).map Card.interval = some (roundTo 2 (6 * (27 / 10))) ∧
      roundTo 2 (6 * (27 / 10)) = 81 / 5 := by
  have h4 : roundTo 4 (26 / 10 + 1 / 10 : ℚ) = 27 / 10 := by
    rw [roundTo, round_eq]; norm_num
  have h2 : roundTo 2 (6 * (27 / 10) : ℚ) = 81 / 5 := by
    rw [roundTo, round_eq]; norm_num
  refine ⟨?_, ?_, h4, ?_, h2⟩
  · simp only [sm2_run, sm2_update, newCard, roundTo, round_eq]
    norm_num
  · rw [h4]
    simp only [sm2_run, sm2_update, newCard, roundTo, round_eq]
    norm_num
  · rw [h2]
    simp only [sm2_run, sm2_update, newCard, roundTo, round_eq]
    norm_num

/-- Single-step preservation of the easiness floor. -/
lemma easiness_floor_step {now : ℚ} {c c' : Card} {q : ℤ}
    (h : sm2_update now c q = some c') (hc : 13 / 10 ≤ c.easiness) :
    13 / 10 ≤ c'.easiness := by
  unfold sm2_update at h
  split at h
  · split at h
    · cases h
      exact le_roundTo_four hc
    · cases h
      refine le_roundTo_four ?_
      split
      · exact le_refl _
      · next hlt => exact le_of_not_lt hlt
  · cases h

/-- For an in-range grade `sm2_update` always succeeds. -/
lemma sm2_update_isSome (now : ℚ) (c : Card) (q : ℤ) (h : 0 ≤ q ∧ q ≤ 5) :
    ∃ c', sm2_update now c q = some c' := by
  unfold sm2_update
  rw [if_pos h]
  split
  · exact ⟨_, rfl⟩
  · exact ⟨_, rfl⟩

/-- C4: iterating the scheduler over any finite sequence of in-range quality
grades keeps `easiness ≥ 1.3` after every step (instantiating the sequence at
each prefix gives every intermediate state). -/
theorem c4_easiness_never_below_floor (now : ℚ) (qs : List ℤ)
    (hqs : ∀ q ∈ qs, 0 ≤ q ∧ q ≤ 5) :
    ∀ c : Card, 13 / 10 ≤ c.easiness →
      ∃ c', sm2_run now c qs = some c' ∧ 13 / 10 ≤ c'.easiness := by
  induction qs with
  | nil => exact fun c hc => ⟨c, rfl, hc⟩
  | cons q qs ih =>
    intro c hc
    obtain ⟨c₁, h₁⟩ := sm2_update_isSome now c q (hqs q (by simp))
    obtain ⟨c', h', hc'⟩ :=
      ih (fun r hr => hqs r (by simp [hr])) c₁ (easiness_floor_step h₁ hc)
    exact ⟨c', by rw [sm2_run, h₁]; exact h', hc'⟩

/-- Witness for `c4_easiness_never_below_floor` on the grade sequence
`[5, 0, 3, 1]` starting from a new card. -/
theorem c4_easiness_never_below_floor_witness :
    ∃ c', sm2_run 0 newCard [5, 0, 3, 1] = some c' ∧ 13 / 10 ≤ c'.easiness :=
  c4_easiness_never_below_floor 0 [5, 0, 3, 1] (by decide) newCard (by norm_num [newCard])

/-! ## Error handling: invalid quality (C7) and atomicity (C9) -/

/-- C7: a quality grade outside `[0, 5]` is rejected by the scheduler entry
point before any scheduling update runs (`sm2_update` returns no state), and
for such grades `cmd_answer` leaves every card row, the undo stack and the
redo stack unchanged — no card state is modified and no undo record is
pushed.  (The review-queue head, which `cmd_answer` pops before validating,
is the subject of C9.) -/
theorem c7_invalid_quality_rejected (now : ℚ) (q : ℤ) (hq : q < 0 ∨ 5 < q) :
    (∀ c : Card, sm2_update now c q = none) ∧
    (∀ st : AppState,
      (cmd_answer q now st).1.cards = st.cards ∧
      (cmd_answer q now st).1.undoStack = st.undoStack ∧
      (cmd_answer q now st).1.redoStack = st.redoStack) ∧
    (∀ (st : AppState) (cid : ℕ) (rest : List ℕ) (row : Card),
      st.quizQueue = cid :: rest → findCard st.cards cid = some row →
      (cmd_answer q now st).2 = some Err.invalidQuality) := by
  have hnone : ∀ c : Card, sm2_update now c q = none := by
    intro c
    unfold sm2_update
    rw [if_neg]
    omega
  refine ⟨hnone, ?_, ?_⟩
  · intro st
    cases hqq : st.quizQueue with
    | nil => simp [cmd_answer, hqq]
    | cons cid rest =>
      cases hfc : findCard st.cards cid with
      | none => simp [cmd_answer, hqq, hfc]
      | some row => simp [cmd_answer, hqq, hfc, hnone row]
  · intro st cid rest row hqq hfc
    simp [cmd_answer, hqq, hfc, hnone row]

/-- Witness for `c7_invalid_quality_rejected` at `q = 6` on a loaded queue. -/
theorem c7_invalid_quality_rejected_witness :
    (∀ c : Card, sm2_update 0 c 6 = none) ∧
    (∀ st : AppState,
      (cmd_answer 6 0 st).1.cards = st.cards ∧
      (cmd_answer 6 0 st).1.undoStack = st.undoStack ∧
      (cmd_answer 6 0 st).1.redoStack = st.redoStack) ∧
    (∀ (st : AppState) (cid : ℕ) (rest : List ℕ) (row : Card),
      st.quizQueue = cid :: rest → findCard st.cards cid = some row →
      (cmd_answer 6 0 st).2 = some Err.invalidQuality) :=
  c7_invalid_quality_rejected 0 6 (by norm_num)

/-- C9 (code bug): `cmd_answer` executes `QuizQueue.popleft()` BEFORE the
quality assertion in `sm2_update` runs, so an answer failing with
InvalidQuality consumes the review-queue head: the failed operation does not
leave all prior state unchanged.  Here quality `6` on a queue holding card 1
fails but empties the queue (storage and stacks stay unchanged). -/
theorem c9_failing_answer_consumes_queue :
    (cmd_answer 6 0 answerState).2 = some Err.invalidQuality ∧
    answerState.quizQueue = [1] ∧
    (cmd_answer 6 0 answerState).1.quizQueue = [] ∧
    (cmd_answer 6 0 answerState).1.cards = answerState.cards ∧
    (cmd_answer 6 0 answerState).1.undoStack = answerState.undoStack := by
  have h : cmd_answer 6 0 answerState =
      ({ answerState with quizQueue := [] }, some Err.invalidQuality) := rfl
  rw [h]
  exact ⟨rfl, rfl, rfl, rfl, rfl⟩

/-! ## Deck deletion without cascade (C8) and the delete-deck undo frame (C10) -/

/-- Counterexample to C8 as stated: deleting deck `child` (id 2) from
`baseState` leaves its card (with `deck_id = 2`) in storage — the cascade to
cards never fires because the operational connection has
`foreign_keys = OFF`. -/
theorem c8_counterexample :
    (cmd_delete_deck "child" baseState).2 = none ∧
    (cmd_delete_deck "child" baseState).1.decks = [rootDeck] ∧
    (cmd_delete_deck "child" baseState).1.cards = [childCard] ∧
    childCard.deck_id = childDeck.id := by
  have h : cmd_delete_deck "child" baseState = (afterDeleteChild, none) := rfl
  rw [h]
  exact ⟨rfl, rfl, rfl, rfl⟩

/-- C8 (amended): deleting a deck removes exactly that deck's row from
storage; its cards remain, and every other deck row (child decks included)
remains.  The schema's `ON DELETE CASCADE` clauses never fire at runtime
because only the `init_db` connection enables `PRAGMA foreign_keys`. -/
theorem c8_delete_deck_no_cascade (st st' : AppState) (name : String)
    (h : cmd_delete_deck name st = (st', none)) :
    st'.cards = st.cards ∧
    ∃ d ∈ st.decks, d.name = name ∧ d ∉ st'.decks ∧
      ∀ x ∈ st.decks, x.id ≠ d.id → x ∈ st'.decks := by
  unfold cmd_delete_deck delete_deck at h
  match hf : st.decks.find? (fun d => d.name = name) with
  | none =>
    rw [hf] at h
    cases h
  | some d =>
    rw [hf] at h
    obtain ⟨h1, -⟩ := Prod.mk.injEq .. ▸ h
    have hd : d ∈ st.decks := List.mem_of_find?_eq_some hf
    have hdn : d.name = name := by
      have := List.find?_some hf
      simpa using this
    subst h1
    refine ⟨rfl, d, hd, hdn, ?_, ?_⟩
    · show d ∉ List.filter _ st.decks
      simp [List.mem_filter]
    · intro x hx hne
      show x ∈ List.filter _ st.decks
      simp [List.mem_filter, hx, hne]

/-- Witness for `c8_delete_deck_no_cascade` on `baseState`. -/
theorem c8_delete_deck_no_cascade_witness :
    afterDeleteChild.cards = baseState.cards ∧
    ∃ d ∈ baseState.decks, d.name = "child" ∧ d ∉ afterDeleteChild.decks ∧
      ∀ x ∈ baseState.decks, x.id ≠ d.id → x ∈ afterDeleteChild.decks :=
  c8_delete_deck_no_cascade baseState afterDeleteChild "child" rfl

/-- C10: the inverse of a `delete_deck` record re-inserts only the deck row
itself (`id`, `name`, `parent_id`): when the id and name are free the decks
table gains exactly that one row, and whatever the payload, the cards table
is never touched — rows that a cascade would have removed are not restored. -/
theorem c10_undo_delete_deck_frame (st : AppState) (r : DeckRow)
    (hfresh : ∀ d ∈ st.decks, d.id ≠ r.id ∧ d.name ≠ r.name) :
    apply_inverse "delete_deck" (.deckRow r) st =
      ({ st with decks := st.decks ++ [r] }, .ok ("add_deck", .name r.name)) ∧
    ∀ data : Payload, (apply_inverse "delete_deck" data st).1.cards = st.cards := by
  constructor
  · unfold apply_inverse
    have hins : insertDeckRow r st.decks = .ok (st.decks ++ [r]) := by
      unfold insertDeckRow
      rw [if_neg]
      simp only [List.any_eq_true, not_exists, not_and, Bool.or_eq_true, decide_eq_true_eq]
      rintro x hx (h | h)
      · exact (hfresh x hx).1 h
      · exact (hfresh x hx).2 h
    simp only [String.reduceEq, if_false, if_true, reduceIte, Payload.getId,
      Payload.getName, Payload.getParentId]
    rw [hins]
  · intro data
    unfold apply_inverse
    simp only [String.reduceEq, reduceIte]
    match data with
    | .name n => rfl
    | .deckRow r' =>
      simp only [Payload.getId, Payload.getName, Payload.getParentId]
      match insertDeckRow r' st.decks with
      | .error e => rfl
      | .ok decks => rfl
    | .cardId i => rfl
    | .rowId i => rfl
    | .cardRow c => rfl
    | .beforeAfter b a => rfl
    | .beforeOnly b => rfl

/-- Witness for `c10_undo_delete_deck_frame`: undoing the deletion of a deck
row `⟨3, "x", some 1⟩` against `baseState`. -/
theorem c10_undo_delete_deck_frame_witness :
    apply_inverse "delete_deck" (.deckRow ⟨3, "x", some 1⟩) baseState =
      ({ baseState with decks := baseState.decks ++ [⟨3, "x", some 1⟩] },
        .ok ("add_deck", .name "x")) ∧
    ∀ data : Payload,
      (apply_inverse "delete_deck" data baseState).1.cards = baseState.cards :=
  c10_undo_delete_deck_frame baseState ⟨3, "x", some 1⟩ (by decide)

/-! ## Undo/redo round trips (C5): computation lemmas -/

/-- `apply_inverse` on an `add_deck` record: delete the deck by name. -/
lemma apply_inverse_add_deck (n : String) (st : AppState) :
    apply_inverse "add_deck" (.name n) st =
      ({ st with decks := st.decks.filter (fun d => d.name ≠ n) },
        .ok ("delete_deck", .name n)) := rfl

/-- `apply_inverse` on a `delete_deck` record with a full deck-row payload. -/
lemma apply_inverse_delete_deck_row (r : DeckRow) (st : AppState) :
    apply_inverse "delete_deck" (.deckRow r) st =
      match insertDeckRow r st.decks with
      | .error e => (st, .error e)
      | .ok decks => ({ st with decks := decks }, .ok ("add_deck", .name r.name)) := rfl

/-- `apply_inverse` on a `delete_deck` record carrying only a name
(the shape a redo after an add-deck undo encounters): `KeyError` on
`data["id"]`, no mutation. -/
lemma apply_inverse_delete_deck_name (n : String) (st : AppState) :
    apply_inverse "delete_deck" (.name n) st = (st, .error .keyError) := rfl

/-- `apply_inverse` on an `add_card` record: delete the card by id. -/
lemma apply_inverse_add_card (cid : ℕ) (st : AppState) :
    apply_inverse "add_card" (.cardId cid) st =
      ({ st with cards := st.cards.filter (fun c => c.id ≠ cid) },
        .ok ("delete_card", .rowId cid)) := rfl

/-- `apply_inverse` on a `delete_card` record with a full card-row payload. -/
lemma apply_inverse_delete_card_row (r : Card) (st : AppState) :
    apply_inverse "delete_card" (.cardRow r) st =
      match insertCardRow r st.cards with
      | .error e => (st, .error e)
      | .ok cards => ({ st with cards := cards }, .ok ("add_card", .cardId r.id)) := rfl

/-- `apply_inverse` on a `delete_card` record carrying only `\x7b"id"\x7d`
(the shape a redo after an add-card undo encounters): the generated
`INSERT INTO cards(id) VALUES(:id)` violates the `NOT NULL` constraints. -/
lemma apply_inverse_delete_card_rowId (cid : ℕ) (st : AppState) :
    apply_inverse "delete_card" (.rowId cid) st = (st, .error .notNullViolation) := rfl

/-- `apply_inverse` on an `edit_card` record: apply the `before` field map. -/
lemma apply_inverse_edit_card (b a : CardPatch) (st : AppState) :
    apply_inverse "edit_card" (.beforeAfter b a) st =
      ({ st with cards := updateCardById st.cards b.id (applyFields b.fields) },
        .ok ("edit_card", .beforeAfter a b)) := rfl

/-- `apply_inverse` on an `answer_card` record with both snapshots. -/
lemma apply_inverse_answer_card (b a : CardPatch) (st : AppState) :
    apply_inverse "answer_card" (.beforeAfter b a) st =
      ({ st with cards := updateCardById st.cards b.id (applyFields b.fields) },
        .ok ("answer_card", .beforeOnly a)) := rfl

/-- `apply_inverse` on an `answer_card` record with only a `before` snapshot
(the shape redo encounters): the `UPDATE` is applied and committed, then
`data["after"]` raises `KeyError`. -/
lemma apply_inverse_answer_card_beforeOnly (b : CardPatch) (st : AppState) :
    apply_inverse "answer_card" (.beforeOnly b) st =
      ({ st with cards := updateCardById st.cards b.id (applyFields b.fields) },
        .error .keyError) := rfl

/-- Applying the full field map of `row` to any card yields `row` with the
target's id. -/
lemma applyFields_fullFields (row y : Card) :
    applyFields (fullFields row) y = { row with id := y.id } := rfl

/-- Every member of a list of naturals is bounded by the running maximum. -/
lemma le_foldr_max (l : List ℕ) : ∀ x ∈ l, x ≤ l.foldr max 0 := by
  induction l with
  | nil => intro x hx; cases hx
  | cons b t ih =>
    intro x hx
    rcases List.mem_cons.mp hx with rfl | hxt
    · exact le_max_left _ _
    · exact le_trans (ih x hxt) (le_max_right _ _)

/-- Removing the unique element with a given key and appending it back is a
permutation of the original list. -/
lemma filter_key_append_perm {α : Type} (key : α → ℕ) (l : List α) (a : α)
    (ha : a ∈ l) (hnd : (l.map key).Nodup) :
    List.Perm (l.filter (fun x => key x ≠ key a) ++ [a]) l := by
  induction l with
  | nil => cases ha
  | cons b t ih =>
    rw [List.map_cons, List.nodup_cons] at hnd
    obtain ⟨hb, hnd'⟩ := hnd
    rcases List.mem_cons.mp ha with rfl | hat
    · have hfilter : t.filter (fun x => decide (key x ≠ key a)) = t := by
        rw [List.filter_eq_self]
        intro x hx
        simp only [decide_eq_true_eq]
        exact fun hcon => hb (by rw [← hcon]; exact List.mem_map_of_mem key hx)
      rw [List.filter_cons_of_neg (by simp)]
      rw [hfilter]
      exact List.perm_append_singleton a t
    · have hkb : key b ≠ key a := fun hcon => hb (by rw [hcon]; exact List.mem_map_of_mem key hat)
      rw [List.filter_cons_of_pos (by simpa using hkb)]
      rw [List.cons_append]
      exact (ih hat hnd').cons b

/-- Pointwise congruence for `updateCardById`. -/
lemma updateCardById_congr (l : List Card) (cid : ℕ) (f g : Card → Card)
    (h : ∀ x ∈ l, x.id = cid → f x = g x) :
    updateCardById l cid f = updateCardById l cid g := by
  unfold updateCardById
  apply List.map_congr_left
  intro x hx
  by_cases hid : x.id = cid
  · simp only [hid, if_true, reduceIte]
    exact h x hx hid
  · simp [hid]

/-- Undoing an in-place row update with the full `before` row restores the
original table: updating the unique row with id `cid` by any id-preserving
function and then applying the saved full row yields the input list. -/
lemma updateCardById_restore (l : List Card) (cid : ℕ) (row : Card) (g : Card → Card)
    (hnd : (l.map Card.id).Nodup) (hrow : l.find? (fun x => x.id = cid) = some row)
    (hg : ∀ x, (g x).id = x.id) :
    updateCardById (updateCardById l cid g) row.id (applyFields (fullFields row)) = l := by
  have hrowmem : row ∈ l := List.mem_of_find?_eq_some hrow
  have hrowid : row.id = cid := by simpa using List.find?_some hrow
  unfold updateCardById
  rw [List.map_map]
  conv_rhs => rw [← List.map_id l]
  apply List.map_congr_left
  intro x hx
  simp only [Function.comp_apply, id_eq]
  by_cases hid : x.id = cid
  · have hxrow : x = row := List.inj_on_of_nodup_map hnd hx hrowmem (by rw [hid, hrowid])
    subst hxrow
    rw [if_pos hid, if_pos (by rw [hg x])]
    rw [applyFields_fullFields, hg x]
  · rw [if_neg hid, if_neg (by rw [hrowid]; exact hid)]

/-- Round trip for `add-deck`: undo restores the exact prior storage (only the
redo stack now holds the inverse record), but the redo of that record — a
`delete_deck` payload holding only the name — raises `KeyError` on
`data["id"]`: it fails without restoring the post-operation state. -/
lemma add_deck_undo_redo (st st₁ : AppState) (name parent : String)
    (h : cmd_add_deck name parent st = (st₁, none)) :
    do_undo st₁ = ({ st with redoStack := [("delete_deck", .name name)] }, none) ∧
    do_redo { st with redoStack := [("delete_deck", .name name)] } =
      ({ st with redoStack := [] }, some Err.keyError) := by
  unfold cmd_add_deck add_deck at h
  split at h
  case h_2 => cases h
  case h_1 st' op heq =>
    split at heq
    · cases heq
    case h_2 pid hpid =>
      split at heq
      · cases heq
      case isFalse hdup =>
        obtain ⟨h2, h3⟩ := Prod.mk.injEq .. ▸ heq
        injection h3 with h3
        subst h2 h3
        obtain ⟨h1, -⟩ := Prod.mk.injEq .. ▸ h
        subst h1
        have hnames : ∀ d ∈ st.decks, d.name ≠ name := by
          intro d hd hcon
          exact hdup (List.any_eq_true.mpr ⟨d, hd, by simp [hcon]⟩)
        have hfilter : List.filter (fun d => decide (d.name ≠ name))
            (st.decks ++ [({ id := freshDeckId st.decks, name := name
                             parent_id := some pid } : DeckRow)]) = st.decks := by
          rw [List.filter_append]
          have hl : st.decks.filter (fun d => decide (d.name ≠ name)) = st.decks := by
            rw [List.filter_eq_self]
            intro d hd
            simp only [decide_eq_true_eq]
            exact hnames d hd
          have hr : List.filter (fun d => decide (d.name ≠ name))
              [({ id := freshDeckId st.decks, name := name, parent_id := some pid } : DeckRow)]
              = [] := by simp
          rw [hl, hr, List.append_nil]
        constructor
        · show do_undo (push_undo _ _) = _
          simp only [do_undo, push_undo, apply_inverse_add_deck]
          rw [Prod.mk.injEq]
          refine ⟨?_, rfl⟩
          rw [AppState.mk.injEq]
          exact ⟨hfilter, rfl, rfl, rfl, rfl, rfl⟩
        · simp only [do_redo, apply_inverse_delete_deck_name]

/-- Round trip for `add-card`: undo deletes the fresh card and restores the
exact prior storage, but redo — `apply_inverse("delete_card", \x7b"id"\x7d)` —
executes `INSERT INTO cards(id) VALUES(:id)`, which violates the schema's
`NOT NULL` constraints: it fails without restoring the post-operation state. -/
lemma add_card_undo_redo (st st₁ : AppState) (dn f b tg : String) (now : ℚ)
    (h : cmd_add_card dn f b tg now st = (st₁, none)) :
    do_undo st₁ =
      ({ st with redoStack := [("delete_card", .rowId (freshCardId st.cards))] }, none) ∧
    do_redo { st with redoStack := [("delete_card", .rowId (freshCardId st.cards))] } =
      ({ st with redoStack := [] }, some Err.notNullViolation) ∧
    st₁.cards ≠ st.cards := by
  unfold cmd_add_card add_card at h
  split at h
  case h_2 => cases h
  case h_1 st' op heq =>
    split at heq
    · cases heq
    case h_2 did hdid =>
      obtain ⟨h2, h3⟩ := Prod.mk.injEq .. ▸ heq
      injection h3 with h3
      subst h2 h3
      obtain ⟨h1, -⟩ := Prod.mk.injEq .. ▸ h
      subst h1
      have hfresh : ∀ c ∈ st.cards, c.id ≠ freshCardId st.cards := by
        intro c hc hcon
        have hle := le_foldr_max (st.cards.map Card.id) c.id (List.mem_map_of_mem Card.id hc)
        unfold freshCardId at hcon
        omega
      have hfilter : List.filter (fun c => decide (c.id ≠ freshCardId st.cards))
          (st.cards ++ [({ id := freshCardId st.cards, deck_id := did, front := f
                           back := b, tags := tg, easiness := 5 / 2, interval := 0
                           repetitions := 0, due_ts := some now, last_review_ts := none
                           successes := 0, failures := 0, created_ts := now
                           updated_ts := now } : Card)]) = st.cards := by
        rw [List.filter_append]
        have hl : st.cards.filter (fun c => decide (c.id ≠ freshCardId st.cards)) = st.cards := by
          rw [List.filter_eq_self]
          intro c hc
          simp only [decide_eq_true_eq]
          exact hfresh c hc
        rw [hl]
        simp
      refine ⟨?_, ?_, ?_⟩
      · show do_undo (push_undo _ _) = _
        simp only [do_undo, push_undo, apply_inverse_add_card]
        rw [Prod.mk.injEq]
        refine ⟨?_, rfl⟩
        rw [AppState.mk.injEq]
        exact ⟨rfl, hfilter, rfl, rfl, rfl, rfl⟩
      · simp only [do_redo, apply_inverse_delete_card_rowId]
      · show st.cards ++ [_] ≠ st.cards
        intro hcon
        have := congrArg List.length hcon
        simp at this

/-- Round trip for `delete-card`: undo re-inserts the saved full row (the
cards table is restored up to row order), and redo deletes it again, exactly
restoring the post-operation state; but the record redo pushes back onto the
undo stack carries only the card's id, not the full-row payload the original
`delete_card` record held. -/
lemma delete_card_undo_redo (st st₁ : AppState) (cid : ℕ)
    (hids : (st.cards.map Card.id).Nodup)
    (h : cmd_delete_card cid st = (st₁, none)) :
    ∃ row st₂,
      findCard st.cards cid = some row ∧
      do_undo st₁ = (st₂, none) ∧
      List.Perm st₂.cards st.cards ∧ st₂.decks = st.decks ∧
      st₂.undoStack = st.undoStack ∧
      do_redo st₂ =
        ({ st₁ with
            redoStack := []
            undoStack := ("delete_card", .rowId cid) :: st.undoStack }, none) ∧
      (("delete_card", Payload.rowId cid) : String × Payload) ≠
        ("delete_card", Payload.cardRow row) := by
  unfold cmd_delete_card delete_card at h
  split at h
  case h_2 => cases h
  case h_1 st' op heq =>
    split at heq
    · cases heq
    case h_2 row hfd =>
      obtain ⟨h2, h3⟩ := Prod.mk.injEq .. ▸ heq
      injection h3 with h3
      subst h2 h3
      obtain ⟨h1, -⟩ := Prod.mk.injEq .. ▸ h
      subst h1
      have hrowmem : row ∈ st.cards := List.mem_of_find?_eq_some hfd
      have hrowid : row.id = cid := by simpa using List.find?_some hfd
      subst hrowid
      have hmem_filter : ∀ x ∈ List.filter (fun x => decide (x.id ≠ row.id)) st.cards,
          x.id ≠ row.id := by
        intro x hx
        rw [List.mem_filter] at hx
        simpa using hx.2
      have hins : insertCardRow row (List.filter (fun x => decide (x.id ≠ row.id)) st.cards) =
          .ok (List.filter (fun x => decide (x.id ≠ row.id)) st.cards ++ [row]) := by
        unfold insertCardRow
        rw [if_neg]
        simp only [List.any_eq_true, not_exists, not_and, decide_eq_true_eq]
        exact fun x hx => hmem_filter x hx
      refine ⟨row,
        { cards := List.filter (fun x => decide (x.id ≠ row.id)) st.cards ++ [row]
          decks := st.decks, quizQueue := st.quizQueue, cardCache := st.cardCache
          undoStack := st.undoStack
          redoStack := [("add_card", Payload.cardId row.id)] },
        hfd, ?_, ?_, rfl, rfl, ?_, by simp⟩
      · show do_undo (push_undo _ _) = _
        simp only [do_undo, push_undo, apply_inverse_delete_card_row]
        rw [hins]
      · show List.Perm (st.cards.filter (fun x => decide (x.id ≠ row.id)) ++ [row]) st.cards
        exact filter_key_append_perm Card.id st.cards row hrowmem hids
      · show do_redo _ = _
        simp only [do_redo, push_undo, apply_inverse_add_card]
        rw [Prod.mk.injEq]
        refine ⟨?_, rfl⟩
        rw [AppState.mk.injEq]
        refine ⟨rfl, ?_, rfl, rfl, rfl, rfl⟩
        rw [List.filter_append]
        have hl : (st.cards.filter (fun x => decide (x.id ≠ row.id))).filter
            (fun x => decide (x.id ≠ row.id)) =
            st.cards.filter (fun x => decide (x.id ≠ row.id)) := by
          rw [List.filter_eq_self]
          intro x hx
          simp only [decide_eq_true_eq]
          exact hmem_filter x hx
        rw [hl]
        simp

/-- `sm2_update` only changes the eight scheduling columns: the result equals
the input row with those columns overwritten. -/
lemma sm2_update_eight_cols {now : ℚ} {c c' : Card} {q : ℤ}
    (h : sm2_update now c q = some c') :
    c' = { c with easiness := c'.easiness, interval := c'.interval
                  repetitions := c'.repetitions, due_ts := c'.due_ts
                  last_review_ts := c'.last_review_ts, successes := c'.successes
                  failures := c'.failures, updated_ts := c'.updated_ts } := by
  unfold sm2_update at h
  split at h
  · split at h
    · injection h with h
      subst h
      rfl
    · injection h with h
      subst h
      rfl
  · cases h

/-- Round trip for `edit-card`: the only fully correct case — undo restores
the exact prior storage and redo restores the exact post-operation session
state, pushing the original record back onto the undo stack. -/
lemma edit_card_undo_redo (st st₁ : AppState) (cid : ℕ) (u : CardFieldsPatch) (now : ℚ)
    (hids : (st.cards.map Card.id).Nodup)
    (h : cmd_edit_card cid u now st = (st₁, none)) :
    ∃ st₂,
      do_undo st₁ = (st₂, none) ∧
      st₂.cards = st.cards ∧ st₂.decks = st.decks ∧ st₂.undoStack = st.undoStack ∧
      do_redo st₂ = (st₁, none) := by
  unfold cmd_edit_card edit_card at h
  split at h
  case h_2 => cases h
  case h_1 st' op heq =>
    split at heq
    · cases heq
    case h_2 row hfd =>
      split at heq
      · cases heq
      case isFalse hne =>
        obtain ⟨h2, h3⟩ := Prod.mk.injEq .. ▸ heq
        injection h3 with h3
        subst h2 h3
        obtain ⟨h1, -⟩ := Prod.mk.injEq .. ▸ h
        subst h1
        have hrestore := updateCardById_restore st.cards cid row
          (applyFields { u with updated_ts := some now }) hids hfd (fun x => rfl)
        refine ⟨{ st with redoStack := [("edit_card", Payload.beforeAfter
            ⟨cid, { u with updated_ts := some now }⟩ (fullPatch row))] }, ?_, rfl, rfl, rfl, ?_⟩
        · show do_undo (push_undo _ _) = _
          simp only [do_undo, push_undo, apply_inverse_edit_card]
          rw [Prod.mk.injEq]
          refine ⟨?_, rfl⟩
          rw [AppState.mk.injEq]
          exact ⟨rfl, hrestore, rfl, rfl, rfl, rfl⟩
        · show do_redo _ = _
          simp only [do_redo, push_undo, apply_inverse_edit_card]

/-- Round trip for `answer-card`: undo restores the exact prior storage (not
the popped queue head), and redo re-applies the row update — restoring the
post-operation cards table — but then raises `KeyError` on the missing
`"after"` key of the degraded record, so it reports a failure and never
pushes a record back onto the undo stack. -/
lemma answer_undo_redo (st st₁ : AppState) (q : ℤ) (now : ℚ)
    (hids : (st.cards.map Card.id).Nodup)
    (h : cmd_answer q now st = (st₁, none)) :
    ∃ st₂ st₃,
      do_undo st₁ = (st₂, none) ∧
      st₂.cards = st.cards ∧ st₂.decks = st.decks ∧ st₂.undoStack = st.undoStack ∧
      do_redo st₂ = (st₃, some Err.keyError) ∧
      st₃.cards = st₁.cards ∧ st₃.undoStack = st.undoStack ∧ st₃.redoStack = [] := by
  unfold cmd_answer at h
  split at h
  · cases h
  case h_2 cid rest hqq =>
    split at h
    · cases h
    case h_2 row hfd =>
      split at h
      · cases h
      case h_2 c hsm =>
        obtain ⟨h1, -⟩ := Prod.mk.injEq .. ▸ h
        subst h1
        have hrowmem : row ∈ st.cards := List.mem_of_find?_eq_some hfd
        have hrowid : row.id = cid := by simpa using List.find?_some hfd
        have hcols := sm2_update_eight_cols hsm
        have hcid : c.id = row.id := by rw [hcols]
        have hrestore := updateCardById_restore st.cards cid row
          (fun x => { x with easiness := c.easiness, interval := c.interval
                             repetitions := c.repetitions, due_ts := c.due_ts
                             last_review_ts := c.last_review_ts, successes := c.successes
                             failures := c.failures, updated_ts := c.updated_ts })
          hids hfd (fun x => rfl)
        have hcards : updateCardById st.cards c.id (applyFields (fullFields c)) =
            updateCardById st.cards cid (fun x =>
              { x with easiness := c.easiness, interval := c.interval
                       repetitions := c.repetitions, due_ts := c.due_ts
                       last_review_ts := c.last_review_ts, successes := c.successes
                       failures := c.failures, updated_ts := c.updated_ts }) := by
          rw [show c.id = cid from hcid.trans hrowid]
          apply updateCardById_congr
          intro x hx hxid
          have hxrow : x = row := List.inj_on_of_nodup_map hids hx hrowmem (by rw [hxid, hrowid])
          subst hxrow
          rw [applyFields_fullFields]
          rw [← hcols, ← hcid]
        refine ⟨{ st with
              quizQueue := rest
              redoStack := [("answer_card", Payload.beforeOnly (fullPatch c))] },
          { st with
              quizQueue := rest
              cards := updateCardById st.cards cid (fun x =>
                { x with easiness := c.easiness, interval := c.interval
                         repetitions := c.repetitions, due_ts := c.due_ts
                         last_review_ts := c.last_review_ts, successes := c.successes
                         failures := c.failures, updated_ts := c.updated_ts })
              redoStack := [] },
          ?_, rfl, rfl, rfl, ?_, rfl, rfl, rfl⟩
        · show do_undo (push_undo _ _) = _
          simp only [do_undo, push_undo, apply_inverse_answer_card]
          rw [Prod.mk.injEq]
          refine ⟨?_, rfl⟩
          rw [AppState.mk.injEq]
          exact ⟨rfl, hrestore, rfl, rfl, rfl, rfl⟩
        · show do_redo _ = _
          simp only [do_redo, push_undo, apply_inverse_answer_card_beforeOnly]
          rw [Prod.mk.injEq]
          refine ⟨?_, rfl⟩
          rw [AppState.mk.injEq]
          exact ⟨rfl, hcards, rfl, rfl, rfl, rfl⟩

/-- Round trip for `delete-deck`: undo re-inserts the saved row (the decks
table is restored up to row order — SQLite tables are row sets), and redo
deletes it again, restoring the post-operation state exactly; but the record
redo pushes back onto the undo stack carries only the deck NAME, not the full
row the original `delete_deck` record held. -/
lemma delete_deck_undo_redo (st st₁ : AppState) (name : String)
    (hids : (st.decks.map DeckRow.id).Nodup)
    (hnames : (st.decks.map DeckRow.name).Nodup)
    (h : cmd_delete_deck name st = (st₁, none)) :
    ∃ d st₂,
      st.decks.find? (fun x => x.name = name) = some d ∧
      do_undo st₁ = (st₂, none) ∧
      List.Perm st₂.decks st.decks ∧ st₂.cards = st.cards ∧
      st₂.undoStack = st.undoStack ∧
      do_redo st₂ =
        ({ st₁ with
            redoStack := []
            undoStack := ("delete_deck", .name name) :: st.undoStack }, none) ∧
      (("delete_deck", Payload.name name) : String × Payload) ≠
        ("delete_deck", Payload.deckRow d) := by
  unfold cmd_delete_deck delete_deck at h
  split at h
  case h_2 => cases h
  case h_1 st' op heq =>
    split at heq
    · cases heq
    case h_2 d hfd =>
      obtain ⟨h2, h3⟩ := Prod.mk.injEq .. ▸ heq
      injection h3 with h3
      subst h2 h3
      obtain ⟨h1, -⟩ := Prod.mk.injEq .. ▸ h
      subst h1
      have hdmem : d ∈ st.decks := List.mem_of_find?_eq_some hfd
      have hdname : d.name = name := by simpa using List.find?_some hfd
      have hfresh : ∀ x ∈ st.decks.filter (fun x => decide (x.id ≠ d.id)),
          x.id ≠ d.id ∧ x.name ≠ d.name := by
        intro x hx
        rw [List.mem_filter] at hx
        obtain ⟨hxmem, hxid⟩ := hx
        simp only [decide_eq_true_eq] at hxid
        refine ⟨hxid, fun hcon => ?_⟩
        exact hxid (congrArg DeckRow.id (List.inj_on_of_nodup_map hnames hxmem hdmem hcon))
      have hins : insertDeckRow d (st.decks.filter (fun x => decide (x.id ≠ d.id))) =
          .ok (st.decks.filter (fun x => decide (x.id ≠ d.id)) ++ [d]) := by
        unfold insertDeckRow
        rw [if_neg]
        simp only [List.any_eq_true, not_exists, not_and, Bool.or_eq_true, decide_eq_true_eq]
        rintro x hx (hcon | hcon)
        · exact absurd hcon (hfresh x hx).1
        · exact absurd hcon (hfresh x hx).2
      refine ⟨d,
        { decks := List.filter (fun x => decide (x.id ≠ d.id)) st.decks ++ [d]
          cards := st.cards, quizQueue := st.quizQueue, cardCache := st.cardCache
          undoStack := st.undoStack
          redoStack := [("add_deck", Payload.name d.name)] },
        hfd, ?_, ?_, rfl, rfl, ?_, by simp⟩
      · show do_undo (push_undo _ _) = _
        simp only [do_undo, push_undo, apply_inverse_delete_deck_row]
        rw [hins]
      · show List.Perm (st.decks.filter (fun x => decide (x.id ≠ d.id)) ++ [d]) st.decks
        exact filter_key_append_perm DeckRow.id st.decks d hdmem hids
      · show do_redo _ = _
        simp only [do_redo, push_undo, apply_inverse_add_deck]
        rw [Prod.mk.injEq]
        refine ⟨?_, rfl⟩
        rw [AppState.mk.injEq]
        refine ⟨?_, rfl, rfl, rfl, ?_, rfl⟩
        · rw [List.filter_append]
          have hl : (st.decks.filter (fun x => decide (x.id ≠ d.id))).filter
              (fun x => decide (x.name ≠ d.name)) =
              st.decks.filter (fun x => decide (x.id ≠ d.id)) := by
            rw [List.filter_eq_self]
            intro x hx
            simp only [decide_eq_true_eq]
            exact (hfresh x hx).2
          have hr : ([d] : List DeckRow).filter (fun x => decide (x.name ≠ d.name)) = [] := by
            simp
          rw [hl, hr, List.append_nil]
        · rw [hdname]

/-- Counterexample to C5 as stated: after `add-card` and an undo, `redo()`
does NOT succeed — `apply_inverse("delete_card", \x7b"id": 1\x7d)` issues
`INSERT INTO cards(id) VALUES(:id)`, which fails the `NOT NULL` constraints —
and the post-operation row is not restored (the cards table stays empty). -/
theorem c5_counterexample :
    (cmd_add_card "root" "f" "b" "" 0 soloDeckState).2 = none ∧
    (do_undo c5AfterAdd).2 = none ∧
    c5AfterUndo.cards = soloDeckState.cards ∧
    (do_redo c5AfterUndo).2 = some Err.notNullViolation ∧
    (do_redo c5AfterUndo).1.cards = soloDeckState.cards ∧
    c5AfterAdd.cards ≠ soloDeckState.cards := by
  refine ⟨rfl, rfl, rfl, rfl, rfl, ?_⟩
  exact fun hcon => List.noConfusion hcon

/-- C5 (amended): for every mutating operation kind, undo immediately after
the operation restores the exact prior row state in storage (lists taken as
row sets: equality, or permutation where a delete's re-insert appends the row
at the end).  A subsequent `redo()`, however, behaves correctly only for
`edit-card` (restoring the post-operation state and pushing the original
record back); for `delete-deck` and `delete-card` it restores the
post-operation state but pushes a degraded record holding only the
name/id instead of the full row; for `answer-card` it restores the
post-operation rows but then fails with `KeyError` before pushing any
record; and for `add-deck` (`KeyError`) and `add-card` (`NOT NULL`
violation) it fails without restoring the post-operation state at all. -/
theorem c5_undo_redo_round_trip :
    (∀ (st st₁ : AppState) (name parent : String),
      cmd_add_deck name parent st = (st₁, none) →
      do_undo st₁ = ({ st with redoStack := [("delete_deck", .name name)] }, none) ∧
      do_redo { st with redoStack := [("delete_deck", .name name)] } =
        ({ st with redoStack := [] }, some Err.keyError)) ∧
    (∀ (st st₁ : AppState) (name : String),
      (st.decks.map DeckRow.id).Nodup → (st.decks.map DeckRow.name).Nodup →
      cmd_delete_deck name st = (st₁, none) →
      ∃ d st₂,
        st.decks.find? (fun x => x.name = name) = some d ∧
        do_undo st₁ = (st₂, none) ∧
        List.Perm st₂.decks st.decks ∧ st₂.cards = st.cards ∧
        st₂.undoStack = st.undoStack ∧
        do_redo st₂ =
          ({ st₁ with
              redoStack := []
              undoStack := ("delete_deck", .name name) :: st.undoStack }, none) ∧
        (("delete_deck", Payload.name name) : String × Payload) ≠
          ("delete_deck", Payload.deckRow d)) ∧
    (∀ (st st₁ : AppState) (dn f b tg : String) (now : ℚ),
      cmd_add_card dn f b tg now st = (st₁, none) →
      do_undo st₁ =
        ({ st with redoStack := [("delete_card", .rowId (freshCardId st.cards))] }, none) ∧
      do_redo { st with redoStack := [("delete_card", .rowId (freshCardId st.cards))] } =
        ({ st with redoStack := [] }, some Err.notNullViolation) ∧
      st₁.cards ≠ st.cards) ∧
    (∀ (st st₁ : AppState) (cid : ℕ),
      (st.cards.map Card.id).Nodup →
      cmd_delete_card cid st = (st₁, none) →
      ∃ row st₂,
        findCard st.cards cid = some row ∧
        do_undo st₁ = (st₂, none) ∧
        List.Perm st₂.cards st.cards ∧ st₂.decks = st.decks ∧
        st₂.undoStack = st.undoStack ∧
        do_redo st₂ =
          ({ st₁ with
              redoStack := []
              undoStack := ("delete_card", .rowId cid) :: st.undoStack }, none) ∧
        (("delete_card", Payload.rowId cid) : String × Payload) ≠
          ("delete_card", Payload.cardRow row)) ∧
    (∀ (st st₁ : AppState) (cid : ℕ) (u : CardFieldsPatch) (now : ℚ),
      (st.cards.map Card.id).Nodup →
      cmd_edit_card cid u now st = (st₁, none) →
      ∃ st₂,
        do_undo st₁ = (st₂, none) ∧
        st₂.cards = st.cards ∧ st₂.decks = st.decks ∧ st₂.undoStack = st.undoStack ∧
        do_redo st₂ = (st₁, none)) ∧
    (∀ (st st₁ : AppState) (q : ℤ) (now : ℚ),
      (st.cards.map Card.id).Nodup →
      cmd_answer q now st = (st₁, none) →
      ∃ st₂ st₃,
        do_undo st₁ = (st₂, none) ∧
        st₂.cards = st.cards ∧ st₂.decks = st.decks ∧ st₂.undoStack = st.undoStack ∧
        do_redo st₂ = (st₃, some Err.keyError) ∧
        st₃.cards = st₁.cards ∧ st₃.undoStack = st.undoStack ∧ st₃.redoStack = []) :=
  ⟨fun st st₁ name parent h => add_deck_undo_redo st st₁ name parent h,
   fun st st₁ name hids hnames h => delete_deck_undo_redo st st₁ name hids hnames h,
   fun st st₁ dn f b tg now h => add_card_undo_redo st st₁ dn f b tg now h,
   fun st st₁ cid hids h => delete_card_undo_redo st st₁ cid hids h,
   fun st st₁ cid u now hids h => edit_card_undo_redo st st₁ cid u now hids h,
   fun st st₁ q now hids h => answer_undo_redo st st₁ q now hids h⟩

/-- Witness for `c5_undo_redo_round_trip`: the edit-card round trip on
`baseState` with a front-text edit. -/
theorem c5_undo_redo_round_trip_witness :
    ∃ st₂,
      do_undo c5EditedState = (st₂, none) ∧
      st₂.cards = baseState.cards ∧ st₂.decks = baseState.decks ∧
      st₂.undoStack = baseState.undoStack ∧
      do_redo st₂ = (c5EditedState, none) :=
  c5_undo_redo_round_trip.2.2.2.2.1 baseState c5EditedState 1 frontPatch 0
    (by decide) rfl

/-! ## Due-set selector (C6): sortedness and stability -/

/-- Inserting into a tie-ordered list keeps it tie-ordered when the new
element ties-after every existing element: elements passed over have a
strictly smaller due key, so no tie with them arises. -/
lemma pairwise_tie_orderedInsert (a : Card) (l : List Card)
    (hl : l.Pairwise dueTie) (ha : ∀ b ∈ l, dueTie a b) :
    (l.orderedInsert dueLE a).Pairwise dueTie := by
  induction l with
  | nil => simp [List.orderedInsert]
  | cons x xs ih =>
    rw [List.pairwise_cons] at hl
    obtain ⟨hx, hxs⟩ := hl
    by_cases h : dueLE a x
    · rw [List.orderedInsert, if_pos h]
      exact List.Pairwise.cons ha (List.Pairwise.cons hx hxs)
    · rw [List.orderedInsert, if_neg h]
      refine List.Pairwise.cons ?_ (ih hxs (fun b hb => ha b (List.mem_cons_of_mem x hb)))
      intro y hy
      rcases (List.mem_orderedInsert dueLE).mp hy with rfl | hyxs
      · intro hk
        exact absurd (le_of_eq hk.symm) h
      · exact hx y hyxs

/-- Stability of the modelled `ORDER BY`: `insertionSort` by due key alone
preserves the relative order of tied rows, so a tie-ordered input (rows in
ascending-id scan order) yields a tie-ordered output. -/
lemma pairwise_tie_insertionSort (l : List Card) (h : l.Pairwise dueTie) :
    (List.insertionSort dueLE l).Pairwise dueTie := by
  induction l with
  | nil => simp
  | cons a l ih =>
    rw [List.pairwise_cons] at h
    obtain ⟨ha, hl⟩ := h
    rw [List.insertionSort]
    apply pairwise_tie_orderedInsert
    · exact ih hl
    · intro b hb
      exact ha b ((List.perm_insertionSort dueLE l).mem_iff.mp hb)

/-- Properties of `take limit (sort-by-due (filter p rows))`: membership,
length, sortedness, tie order, and exactness below the limit. -/
lemma selector_rows_props (p : Card → Bool) (l : List Card) (limit : ℕ) :
    (∀ c ∈ (List.insertionSort dueLE (l.filter p)).take limit, c ∈ l ∧ p c = true) ∧
    ((List.insertionSort dueLE (l.filter p)).take limit).length
      = min limit (l.filter p).length ∧
    List.Sorted dueLE ((List.insertionSort dueLE (l.filter p)).take limit) ∧
    (l.Pairwise (fun a b => a.id ≤ b.id) →
      ((List.insertionSort dueLE (l.filter p)).take limit).Pairwise dueTie) ∧
    ((l.filter p).length ≤ limit →
      List.Perm ((List.insertionSort dueLE (l.filter p)).take limit) (l.filter p)) := by
  refine ⟨?_, ?_, ?_, ?_, ?_⟩
  · intro c hc
    have h1 : c ∈ List.insertionSort dueLE (l.filter p) := List.take_subset limit _ hc
    have h2 : c ∈ l.filter p := (List.perm_insertionSort dueLE (l.filter p)).mem_iff.mp h1
    rw [List.mem_filter] at h2
    exact h2
  · rw [List.length_take, (List.perm_insertionSort dueLE (l.filter p)).length_eq]
  · exact List.Pairwise.sublist (List.take_sublist _ _)
      (List.sorted_insertionSort dueLE (l.filter p))
  · intro hid
    have h1 : (l.filter p).Pairwise dueTie :=
      (List.Pairwise.filter p hid).imp (fun hab => fun _ => hab)
    exact List.Pairwise.sublist (List.take_sublist _ _) (pairwise_tie_insertionSort _ h1)
  · intro hlen
    rw [List.take_of_length_le
      (by rw [(List.perm_insertionSort dueLE (l.filter p)).length_eq]; exact hlen)]
    exact List.perm_insertionSort dueLE (l.filter p)

/-- Counterexample to C6 as stated: `COALESCE(due_ts, '1970-01-01T00:00:00')`
treats an absent due time as the EPOCH, not as the earliest possible time — a
stored due time before the epoch sorts ahead of it.  With card 1 due at `-1`
(pre-epoch) and card 2 due-absent, the selector returns `[1, 2]`: the
absent-due card does not come first. -/
theorem c6_counterexample :
    (load_due_cards none 50 10 dueOrderState).1.quizQueue = [1, 2] ∧
    preEpochCard.id = 1 ∧ preEpochCard.due_ts = some (-1) ∧
    absentDueCard.id = 2 ∧ absentDueCard.due_ts = none := by
  refine ⟨?_, rfl, rfl, rfl, rfl⟩
  rfl

/-- C6 (amended): the due-set selector fails with DeckNotFound when the deck
filter does not resolve (the queue and cache having already been cleared);
otherwise it loads exactly the stored cards whose `due_ts` is absent or
`<= now` (with a flat `deck_id` equality match under a deck filter), ordered
ascending by due time where an ABSENT due time is treated as the epoch
`1970-01-01T00:00:00` (not as the earliest possible time), ties resolved by
ascending identifier (rows reach the sort in ascending-id scan order and the
sort is stable), truncated to the limit; the Review Queue and card cache are
replaced by the selected ids and records. -/
theorem c6_select_due :
    (∀ (st : AppState) (nm : String) (limit : ℕ) (now : ℚ),
      get_deck_id_by_name st.decks nm = none →
      load_due_cards (some nm) limit now st =
        ({ st with quizQueue := [], cardCache := [] }, some Err.deckNotFound)) ∧
    (∀ (st : AppState) (limit : ℕ) (now : ℚ),
      ∃ rows : List Card,
        load_due_cards none limit now st =
          ({ st with quizQueue := rows.map Card.id
                     cardCache := rows.map (fun c => (c.id, c)) }, none) ∧
        (∀ c ∈ rows, c ∈ st.cards ∧ isDue now c = true) ∧
        rows.length = min limit (st.cards.filter (fun c => isDue now c)).length ∧
        List.Sorted dueLE rows ∧
        (st.cards.Pairwise (fun a b => a.id ≤ b.id) → rows.Pairwise dueTie) ∧
        ((st.cards.filter (fun c => isDue now c)).length ≤ limit →
          List.Perm rows (st.cards.filter (fun c => isDue now c)))) ∧
    (∀ (st : AppState) (nm : String) (did : ℕ) (limit : ℕ) (now : ℚ),
      get_deck_id_by_name st.decks nm = some did →
      ∃ rows : List Card,
        load_due_cards (some nm) limit now st =
          ({ st with quizQueue := rows.map Card.id
                     cardCache := rows.map (fun c => (c.id, c)) }, none) ∧
        (∀ c ∈ rows, c ∈ st.cards ∧ isDue now c = true ∧ c.deck_id = did) ∧
        rows.length
          = min limit (st.cards.filter (fun c => isDue now c && decide (c.deck_id = did))).length ∧
        List.Sorted dueLE rows ∧
        (st.cards.Pairwise (fun a b => a.id ≤ b.id) → rows.Pairwise dueTie) ∧
        ((st.cards.filter (fun c => isDue now c && decide (c.deck_id = did))).length ≤ limit →
          List.Perm rows
            (st.cards.filter (fun c => isDue now c && decide (c.deck_id = did))))) := by
  refine ⟨?_, ?_, ?_⟩
  · intro st nm limit now h
    simp only [load_due_cards, h]
  · intro st limit now
    obtain ⟨hmem, hlen, hsort, htie, hperm⟩ :=
      selector_rows_props (fun c => isDue now c) st.cards limit
    refine ⟨(List.insertionSort dueLE (st.cards.filter (fun c => isDue now c))).take limit,
      ?_, hmem, hlen, hsort, htie, hperm⟩
    simp only [load_due_cards, Bool.and_true]
  · intro st nm did limit now h
    obtain ⟨hmem, hlen, hsort, htie, hperm⟩ :=
      selector_rows_props (fun c => isDue now c && decide (c.deck_id = did)) st.cards limit
    refine ⟨(List.insertionSort dueLE
        (st.cards.filter (fun c => isDue now c && decide (c.deck_id = did)))).take limit,
      ?_, ?_, hlen, hsort, htie, hperm⟩
    · simp only [load_due_cards, h]
    · intro c hc
      obtain ⟨hcl, hp⟩ := hmem c hc
      rw [Bool.and_eq_true, decide_eq_true_eq] at hp
      exact ⟨hcl, hp.1, hp.2⟩

/-- Witness for `c6_select_due`: resolving a nonexistent deck name fails with
DeckNotFound and leaves the queue and cache cleared. -/
theorem c6_select_due_witness :
    load_due_cards (some "nope") 50 0 baseState =
      ({ baseState with quizQueue := [], cardCache := [] }, some Err.deckNotFound) :=
  c6_select_due.1 baseState "nope" 50 0 rfl

end Flashcards
